import Mathlib

/-!
Shallow embedding of the TaskGlitch task-tracking client
(`src/unnamed/part_000` and `src/types.ts`) together with proofs about the
claims of its specification.

Text is modelled as `List Char` (the character content of a JavaScript
string); JavaScript numbers are modelled as rationals `ℚ`.  Helper
functions that live in the repository's `utils/helpers.ts` file (which is
not part of the provided sources) are modelled from the specification and
carry a doc comment saying so.
-/

namespace TaskGlitch

/-- Character-list view of a JavaScript string. -/
abbrev Str : Type := List Char

/-- The double-quote character, written via its code point. -/
def qc : Char := Char.ofNat 34

/-- Whitespace test used by the model of `String.prototype.trim`. -/
def isWS (c : Char) : Bool := c == ' ' || c == '\t' || c == '\n' || c == '\r'

/-- Model of JavaScript `s.trim()`: drops leading and trailing whitespace. -/
def trimL (l : Str) : Str := ((l.dropWhile isWS).reverse.dropWhile isWS).reverse

/-- Model of JavaScript `s.split(sep)` for a one-character separator:
splitting the empty string yields `[[]]`, matching `"".split(",") = [""]`. -/
def splitOnC (sep : Char) (l : Str) : List Str :=
  l.foldr
    (fun c acc =>
      match acc with
      | [] => [[c]]
      | g :: gs => if c = sep then [] :: g :: gs else (c :: g) :: gs)
    [[]]

/-- Joins parts with a one-character separator (inverse of `splitOnC` on
separator-free parts). -/
def joinWith (sep : Char) : List Str → Str
  | [] => []
  | [x] => x
  | x :: y :: xs => x ++ sep :: joinWith sep (y :: xs)

/-- Model of JavaScript `s.toLowerCase()`. -/
def lowerL (l : Str) : Str := l.map Char.toLower

/-- Tests whether the second list starts with the first list. -/
def leadsWith : Str → Str → Bool
  | [], _ => true
  | _ :: _, [] => false
  | a :: as, b :: bs => a == b && leadsWith as bs

/-- Tests whether `needle` occurs contiguously inside `hay`. -/
def hasSub (needle : Str) : Str → Bool
  | [] => needle.isEmpty
  | b :: bs => leadsWith needle (b :: bs) || hasSub needle bs

/-- Model of JavaScript `hay.includes(needle)`. -/
def strIncludes (hay needle : Str) : Bool := hasSub needle hay

/-- Model of JavaScript `s.replace(/"/g, '')`: removes every double-quote
character. -/
def removeQuotes (l : Str) : Str := l.filter (fun c => c ≠ qc)

/-- Numeric value of a decimal digit character. -/
def dval (c : Char) : Nat := c.toNat - 48

/-- Value of a string of decimal digits, most significant first. -/
def digitsToNat (ds : Str) : Nat := ds.foldl (fun a c => 10 * a + dval c) 0

/-- Model of the unsigned core of JavaScript `parseFloat`: a maximal run of
digits, optionally followed by a decimal point and a maximal run of
fractional digits; `none` when no digit is found. -/
def parseUnsigned (cs : Str) : Option ℚ :=
  let ip := cs.takeWhile Char.isDigit
  let rest := cs.dropWhile Char.isDigit
  match rest with
  | '.' :: r2 =>
      let fp := r2.takeWhile Char.isDigit
      if ip = [] ∧ fp = [] then none
      else some ((digitsToNat ip : ℚ) + (digitsToNat fp : ℚ) / (10 : ℚ) ^ fp.length)
  | _ => if ip = [] then none else some (digitsToNat ip : ℚ)

/-- Model of JavaScript `parseFloat`: skips leading whitespace, handles an
optional sign, then parses a decimal number; `none` plays the role of
`NaN`. -/
def parseFloat (cs : Str) : Option ℚ :=
  match cs.dropWhile isWS with
  | [] => none
  | c :: r =>
      if c = '-' then (parseUnsigned r).map (fun q => -q)
      else if c = '+' then parseUnsigned r
      else parseUnsigned (c :: r)

/-- Model of `parseFloat(s) || 0` as used by the CSV importer: `NaN`
(parse failure) becomes `0`. -/
def parseNumOr0 (cs : Str) : ℚ := (parseFloat cs).getD 0

/-- Decimal digits of `n`, least significant first, with explicit fuel so
that the definition is structural and kernel-reducible. -/
def natDigitsAux : Nat → Nat → Str
  | 0, _ => []
  | fuel + 1, n => if n = 0 then [] else Char.ofNat (48 + n % 10) :: natDigitsAux fuel (n / 10)

/-- Decimal representation of a natural number. -/
def natToStr (n : Nat) : Str := if n = 0 then ['0'] else (natDigitsAux (n + 1) n).reverse

/-- Decimal representation of an integer. -/
def intToStr (z : Int) : Str := if z < 0 then '-' :: natToStr z.natAbs else natToStr z.toNat

/-- JavaScript `a || b` on strings: the empty string is falsy. -/
def jsOr (a b : Str) : Str := if a = [] then b else a

/-! ## Data model (`src/types.ts`)

At runtime a JavaScript object carries plain strings in every text field, and
the CSV importer stores raw file text in `priority`/`status` without
validation, so those fields are modelled as `Str` rather than as closed
enumerations. -/

/-- The `Task` record of `src/types.ts`. -/
structure Task where
  id : Str
  title : Str
  revenue : ℚ
  timeTaken : ℚ
  roi : ℚ
  priority : Str
  status : Str
  notes : Str
  createdAt : Int
deriving DecidableEq

/-- A `Partial<Task>` value: every field optional, `none` meaning the
property is absent. -/
structure TaskPartial where
  id : Option Str := none
  title : Option Str := none
  revenue : Option ℚ := none
  timeTaken : Option ℚ := none
  roi : Option ℚ := none
  priority : Option Str := none
  status : Option Str := none
  notes : Option Str := none
  createdAt : Option Int := none
deriving DecidableEq

/-- JavaScript object spread `{ ...t, ...data }`: every property present in
`data` overwrites the corresponding property of `t`. -/
def mergeTask (t : Task) (d : TaskPartial) : Task :=
  { id := d.id.getD t.id
  , title := d.title.getD t.title
  , revenue := d.revenue.getD t.revenue
  , timeTaken := d.timeTaken.getD t.timeTaken
  , roi := d.roi.getD t.roi
  , priority := d.priority.getD t.priority
  , status := d.status.getD t.status
  , notes := d.notes.getD t.notes
  , createdAt := d.createdAt.getD t.createdAt }

/-- The store state of `src/types.ts` (`AppState`), restricted to the fields
the verified operations touch. -/
structure AppState where
  tasks : List Task
  lastDeletedTask : Option Task
  isUndoVisible : Bool
  isLoading : Bool
deriving DecidableEq

/-! ## Helpers from `utils/helpers.ts` (not among the provided sources) -/

/-- Modelled from the spec: `calculateROI` of `utils/helpers.ts` is missing
from the sources.  Per §4.1 and §8 of the spec it returns `0` when
`timeTaken = 0` and otherwise `revenue / timeTaken` times a fixed scale
constant; the seed tasks in `src/unnamed/part_000` (revenue 15000, time 20,
roi 750; revenue 2500, time 10, roi 250) fix the scale constant at `1`. -/
def calculateROI (revenue timeTaken : ℚ) : ℚ :=
  if timeTaken = 0 then 0 else revenue / timeTaken

/-- The `PRIORITY_WEIGHTS` record of `src/types.ts` (`High` 3, `Medium` 2,
`Low` 1), as a function on the runtime string; strings outside the
`Priority` union (unreachable for well-typed data) weigh `0`. -/
def PRIORITY_WEIGHTS (p : Str) : Nat :=
  if p = "High".data then 3 else if p = "Medium".data then 2 else if p = "Low".data then 1 else 0

/-- Sort key of the view pipeline: primarily by priority weight descending
(High before Medium before Low), secondarily by `createdAt` descending. -/
def taskLE (a b : Task) : Prop :=
  PRIORITY_WEIGHTS b.priority < PRIORITY_WEIGHTS a.priority ∨
    (PRIORITY_WEIGHTS a.priority = PRIORITY_WEIGHTS b.priority ∧ b.createdAt ≤ a.createdAt)

instance : DecidableRel taskLE := fun a b => by unfold taskLE; infer_instance

/-- Modelled from the spec: `sortTasks` of `utils/helpers.ts` is missing
from the sources.  Per §4.4 of the spec it is a stable sort over the
filtered set, ordered primarily by `PRIORITY_WEIGHTS` (High before Medium
before Low) and secondarily by `createdAt` descending; it is modelled as a
stable insertion sort with that key. -/
def sortTasks (l : List Task) : List Task := l.insertionSort taskLE

/-- Modelled from the spec: `generateId` of `utils/helpers.ts` is missing
from the sources.  It produces an opaque fresh identifier; here it is a
function of the position at which it is called, which is all the claims
need (no claim constrains identifier values, only that `id` is opaque). -/
def generateId (i : Nat) : Str := 'i' :: natToStr i

/-- Modelled from the spec: the number-to-text rendering used by the CSV
export.  The spec fixes no number format, so integral values are rendered
exactly in decimal (the only values the round-trip claim is verified on);
a non-integral rational is rendered as `num/den` to keep the function
total. -/
def numOut (q : ℚ) : Str :=
  if q.den = 1 then intToStr q.num else intToStr q.num ++ '/' :: natToStr q.den

/-- Modelled from the spec (§4.3): a CSV field containing a comma, a
double quote or a newline is quoted, with inner double quotes doubled;
any other field is emitted verbatim. -/
def escapeCSV (f : Str) : Str :=
  if ',' ∈ f ∨ qc ∈ f ∨ '\n' ∈ f then
    qc :: (f.flatMap fun c => if c = qc then [qc, qc] else [c]) ++ [qc]
  else f

/-- Header line of the exported CSV, per §6 of the spec: the import column
layout `title, revenue, timeTaken, <unused>, priority, status, notes`,
with the unused column holding `roi`. -/
def csvHeader : Str := "title,revenue,timeTaken,roi,priority,status,notes".data

/-- Modelled from the spec: one exported CSV line for a task, fields joined
by commas in the fixed column order of `csvHeader`. -/
def rowOf (t : Task) : Str :=
  joinWith ','
    [ escapeCSV t.title, numOut t.revenue, numOut t.timeTaken, numOut t.roi
    , escapeCSV t.priority, escapeCSV t.status, escapeCSV t.notes ]

/-- Modelled from the spec: `exportTasksToCSV` of `utils/helpers.ts` is
missing from the sources.  Per §4.3/§6 it produces the header line followed
by one line per task. -/
def exportTasksToCSV (tasks : List Task) : Str :=
  joinWith '\n' (csvHeader :: tasks.map rowOf)

/-! ## Store operations (`src/unnamed/part_000`) -/

/-- The `updateTask` handler (lines 99-106): a no-op when no task is
selected in the dialog, otherwise maps `{ ...t, ...data }` over the tasks
whose `id` equals the selected task's `id`. -/
def updateTask (selectedTask : Option Task) (tasks : List Task) (data : TaskPartial) :
    List Task :=
  match selectedTask with
  | none => tasks
  | some s => tasks.map (fun t => if t.id = s.id then mergeTask t data else t)

/-- The `deleteTask` handler (lines 108-115). -/
def deleteTask (s : AppState) (task : Task) : AppState :=
  { s with
    tasks := s.tasks.filter (fun t => t.id ≠ task.id)
  , lastDeletedTask := some task
  , isUndoVisible := true }

/-- The `undoDelete` handler (lines 117-126). -/
def undoDelete (s : AppState) : AppState :=
  match s.lastDeletedTask with
  | some d =>
      { s with tasks := s.tasks ++ [d], lastDeletedTask := none, isUndoVisible := false }
  | none => s

/-- The `closeUndoSnackbar` callback (lines 68-74). -/
def closeUndoSnackbar (s : AppState) : AppState :=
  { s with isUndoVisible := false, lastDeletedTask := none }

/-- One accepted CSV row (lines 146-158 of `handleImportCSV`), for the row
at line index `i` of the file. -/
def mkImportedTask (parts : List Str) (i : Nat) (now : Int) : Task :=
  { id := generateId i
  , title := removeQuotes (parts.getD 0 [])
  , revenue := parseNumOr0 (parts.getD 1 [])
  , timeTaken := parseNumOr0 (parts.getD 2 [])
  , roi := calculateROI (parseNumOr0 (parts.getD 1 [])) (parseNumOr0 (parts.getD 2 []))
  , priority := jsOr (parts.getD 4 []) "Low".data
  , status := jsOr (parts.getD 5 []) "Pending".data
  , notes := removeQuotes (parts.getD 6 [])
  , createdAt := now - (i : Int) * 1000 }

/-- The row loop of `handleImportCSV` (lines 139-160): `i` is the index of
the current line in the file; a blank line or a line with fewer than 6
comma-separated fields contributes nothing. -/
def importLoop (now : Int) : List Str → Nat → List Task
  | [], _ => []
  | l :: ls, i =>
      if trimL l = [] then importLoop now ls (i + 1)
      else
        if 6 ≤ (splitOnC ',' (trimL l)).length then
          mkImportedTask (splitOnC ',' (trimL l)) i now :: importLoop now ls (i + 1)
        else importLoop now ls (i + 1)

/-- The parsing core of `handleImportCSV` (lines 133-160): splits the file
text into lines, skips the header line, and runs the row loop starting at
line index 1. -/
def importCSV (text : Str) (now : Int) : List Task :=
  importLoop now ((splitOnC '\n' text).drop 1) 1

/-- The state update of `handleImportCSV` (lines 161-163): when at least
one row was accepted, the new tasks are prepended as a batch. -/
def applyImport (tasks : List Task) (text : Str) (now : Int) : List Task :=
  let newTasks := importCSV text now
  if 0 < newTasks.length then newTasks ++ tasks else tasks

/-- The filter predicate of `displayTasks` (lines 170-175). -/
def matchesFilters (searchQuery filterStatus filterPriority : Str) (t : Task) : Bool :=
  strIncludes (lowerL t.title) (lowerL searchQuery) &&
    (filterStatus = "All".data || t.status = filterStatus) &&
    (filterPriority = "All".data || t.priority = filterPriority)

/-- The `displayTasks` derivation (lines 169-179): filter, then stable
sort. -/
def displayTasks (tasks : List Task) (searchQuery filterStatus filterPriority : Str) :
    List Task :=
  sortTasks (tasks.filter (matchesFilters searchQuery filterStatus filterPriority))

/-- The `loadTasks` routine (lines 41-57).  The persisted blob is `none`
when the storage key is absent; `JSON.parse` is an external browser
builtin, modelled as an all-or-nothing parser `parse` whose `Except.error`
result plays the role of the thrown exception, which the code does not
catch and therefore propagates (the `setState` adopting the tasks is never
reached).  The JavaScript truthiness test `if (saved)` treats an empty
string like an absent key. -/
def loadTasks (parse : Str → Except Str (List Task)) (saved : Option Str)
    (seedTasks : List Task) : Except Str (List Task) :=
  match saved with
  | some s => if s = [] then Except.ok seedTasks else parse s
  | none => Except.ok seedTasks

/-! ## The undo timer (lines 76-81)

React semantics of the effect
`useEffect(.., [state.isUndoVisible, closeUndoSnackbar])`: the callback
`closeUndoSnackbar` comes from `useCallback(.., [])` and never changes
identity, so the effect re-runs exactly when `isUndoVisible` changes; a
re-run first executes the previous cleanup (`clearTimeout`) and then, when
the snackbar is visible, schedules `closeUndoSnackbar` 6000 ms ahead.  The
state is paired with the (absolute) deadline of the scheduled timeout, if
one is armed. -/

/-- An `AppState` together with the armed auto-dismiss deadline. -/
structure USys where
  app : AppState
  timer : Option Int
deriving DecidableEq

/-- Runs the undo-timer effect after a state change at time `now`:
nothing happens unless `isUndoVisible` changed, in which case the old
timeout is cleared and, when now visible, a new one is armed 6000 ms
ahead. -/
def effectSync (prevVisible : Bool) (now : Int) (u : USys) : USys :=
  if u.app.isUndoVisible = prevVisible then u
  else if u.app.isUndoVisible then { u with timer := some (now + 6000) }
  else { u with timer := none }

/-- A `deleteTask` click at time `now`, followed by the effect pass. -/
def uDelete (u : USys) (task : Task) (now : Int) : USys :=
  effectSync u.app.isUndoVisible now { u with app := deleteTask u.app task }

/-- An `undoDelete` click at time `now`, followed by the effect pass. -/
def uUndo (u : USys) (now : Int) : USys :=
  effectSync u.app.isUndoVisible now { u with app := undoDelete u.app }

/-- The armed timeout firing at its deadline `now`: the callback
`closeUndoSnackbar` runs and the effect pass clears the (already spent)
timer. -/
def uFire (u : USys) (now : Int) : USys :=
  if u.timer = some now then
    effectSync u.app.isUndoVisible now { app := closeUndoSnackbar u.app, timer := none }
  else u

/-! ## Concrete fixtures -/

/-- A concrete low-priority task. -/
def tA : Task :=
  { id := ['a'], title := ['A'], revenue := 0, timeTaken := 0, roi := 0
  , priority := "Low".data, status := "Pending".data, notes := [], createdAt := 10 }

/-- A concrete high-priority task. -/
def tB : Task :=
  { id := ['b'], title := ['B'], revenue := 0, timeTaken := 0, roi := 0
  , priority := "High".data, status := "Pending".data, notes := [], createdAt := 5 }

/-- A partial update that tries to overwrite the `id` field. -/
def cpId : TaskPartial := { id := some ['z'] }

/-- A partial update that sets only the title. -/
def cpTitle : TaskPartial := { title := some ['T'] }

/-- A concrete store state holding only `tA`. -/
def appS0 : AppState :=
  { tasks := [tA], lastDeletedTask := none, isUndoVisible := false, isLoading := false }

/-- What `updateTask` is claimed to do to each task `t` of the collection,
`u` being the corresponding output task: a non-matching task is unchanged,
the matching task receives every field of the partial, its remaining
fields are kept, and its `id` and `createdAt` are untouched. -/
def updSpec (data : TaskPartial) (s : Task) (t u : Task) : Prop :=
  (t.id ≠ s.id → u = t) ∧
  (t.id = s.id →
    u.id = t.id ∧ u.createdAt = t.createdAt ∧
    u.title = data.title.getD t.title ∧
    u.revenue = data.revenue.getD t.revenue ∧
    u.timeTaken = data.timeTaken.getD t.timeTaken ∧
    u.roi = data.roi.getD t.roi ∧
    u.priority = data.priority.getD t.priority ∧
    u.status = data.status.getD t.status ∧
    u.notes = data.notes.getD t.notes)

/-- C1, counterexample.  The claim says `update` never alters the matched
task's `id`, but the object spread `{ ...t, ...data }` overwrites `id`
whenever the partial carries one: updating `[tA]` with the partial
`{ id: 'z' }` changes the stored id. -/
theorem updateTask_id_overwritten :
    ¬ ((updateTask (some tA) [tA] cpId).map Task.id = [tA].map Task.id) := by
  decide

/-- C1 (amended: provided the partial does not itself carry `id` or
`createdAt` fields).  `update` is a no-op when no task is selected;
otherwise it merges the partial's fields into every task whose `id`
matches the selected task's id, leaves every other task unchanged, and
does not alter the matched task's `id` or `createdAt`. -/
theorem updateTask_frame :
    (∀ (tasks : List Task) (data : TaskPartial), updateTask none tasks data = tasks) ∧
    ∀ (tasks : List Task) (data : TaskPartial) (s : Task),
      data.id = none → data.createdAt = none →
      List.Forall₂ (updSpec data s) tasks (updateTask (some s) tasks data) := by
  constructor
  · intro tasks data; rfl
  · intro tasks data s hid hcr
    show List.Forall₂ _ tasks (tasks.map _)
    rw [List.forall₂_map_right_iff, List.forall₂_same]
    intro t _
    constructor
    · intro hne; simp [hne]
    · intro heq
      simp only [heq, if_pos rfl, mergeTask, hid, hcr, Option.getD_none]
      exact ⟨rfl, rfl, rfl, rfl, rfl, rfl, rfl, rfl, rfl⟩

/-- C1, witness: the frame theorem applied to the one-task store `[tA]`
and a partial that only changes the title. -/
theorem updateTask_frame_witness :
    cpTitle.id = none ∧ cpTitle.createdAt = none ∧
    List.Forall₂ (updSpec cpTitle tA) [tA] (updateTask (some tA) [tA] cpTitle) :=
  ⟨rfl, rfl, updateTask_frame.2 [tA] cpTitle tA rfl rfl⟩

/-! ## C2: the undo timer on a second delete -/

/-- Undo-controller scenario, initial state: two tasks, snackbar hidden,
no timer armed. -/
def c2Start : USys :=
  { app := { tasks := [tA, tB], lastDeletedTask := none, isUndoVisible := false
           , isLoading := false }
  , timer := none }

/-- After deleting `tA` at time 0: the snackbar appears and the effect
arms the auto-dismiss timeout for time 6000. -/
def c2AfterFirst : USys := uDelete c2Start tA 0

/-- After deleting `tB` at time 5000 while the snackbar is still visible:
`isUndoVisible` stays `true`, so the effect does not re-run and the timer
armed for the first delete stays in place. -/
def c2AfterSecond : USys := uDelete c2AfterFirst tB 5000

/-- The stale timeout firing at its deadline 6000. -/
def c2AfterFire : USys := uFire c2AfterSecond 6000

/-- C2, evaluation at the failing trace: after the second delete the
pending task is `tB` but the armed deadline is still 6000 (set by the
first delete); the stale timeout fires at 6000 and discards `tB` only
1000 ms after its deletion, before `tB`'s own full 6000 ms duration
(which would end at 11000) has elapsed. -/
theorem undo_timer_stale_fire :
    c2AfterFirst.timer = some 6000 ∧
    c2AfterSecond.app.lastDeletedTask = some tB ∧
    c2AfterSecond.app.isUndoVisible = true ∧
    c2AfterSecond.timer = some 6000 ∧
    c2AfterFire.app.lastDeletedTask = none ∧
    c2AfterFire.app.isUndoVisible = false ∧
    (6000 : Int) < 5000 + 6000 := by
  decide

/-- C3.  Deleting a task present in the collection and immediately undoing
re-appends the very same task (identical field values, original `id`),
clears the last-deleted slot and hides the notification; undo is a no-op
when nothing is pending. -/
theorem delete_undo_restores :
    (∀ (s : AppState) (t : Task), t ∈ s.tasks →
      t ∈ (undoDelete (deleteTask s t)).tasks ∧
      (undoDelete (deleteTask s t)).tasks.getLast? = some t ∧
      (undoDelete (deleteTask s t)).lastDeletedTask = none ∧
      (undoDelete (deleteTask s t)).isUndoVisible = false) ∧
    ∀ s : AppState, s.lastDeletedTask = none → undoDelete s = s := by
  constructor
  · intro s t _
    refine ⟨?_, ?_, rfl, rfl⟩
    · simp [deleteTask, undoDelete]
    · simp [deleteTask, undoDelete]
  · intro s h
    unfold undoDelete
    rw [h]

/-- C3, witness: delete-then-undo on the one-task store, and undo as a
no-op on the same store. -/
theorem delete_undo_restores_witness :
    (tA ∈ appS0.tasks ∧
      tA ∈ (undoDelete (deleteTask appS0 tA)).tasks ∧
      (undoDelete (deleteTask appS0 tA)).tasks.getLast? = some tA ∧
      (undoDelete (deleteTask appS0 tA)).lastDeletedTask = none ∧
      (undoDelete (deleteTask appS0 tA)).isUndoVisible = false) ∧
    appS0.lastDeletedTask = none ∧ undoDelete appS0 = appS0 :=
  ⟨⟨by decide, delete_undo_restores.1 appS0 tA (by decide)⟩,
   rfl, delete_undo_restores.2 appS0 rfl⟩

/-- C10.  Deleting a task whose `id` is absent from the collection leaves
the collection unchanged, yet still stores that task in the last-deleted
slot and shows the undo notification; a subsequent undo then appends to
the collection a task that was never removed from it. -/
theorem delete_absent_id :
    ∀ (s : AppState) (t : Task), t.id ∉ s.tasks.map Task.id →
      (deleteTask s t).tasks = s.tasks ∧
      (deleteTask s t).lastDeletedTask = some t ∧
      (deleteTask s t).isUndoVisible = true ∧
      (undoDelete (deleteTask s t)).tasks = s.tasks ++ [t] := by
  intro s t h
  have hfil : s.tasks.filter (fun x => x.id ≠ t.id) = s.tasks := by
    rw [List.filter_eq_self]
    intro a ha
    simp only [decide_eq_true_eq]
    intro hid
    exact h (hid ▸ List.mem_map_of_mem Task.id ha)
  refine ⟨hfil, rfl, rfl, ?_⟩
  have hstep : (undoDelete (deleteTask s t)).tasks =
      s.tasks.filter (fun x => x.id ≠ t.id) ++ [t] := rfl
  rw [hstep, hfil]

/-- C10, witness: deleting `tB` (id `b`) from the store that holds only
`tA` (id `a`). -/
theorem delete_absent_id_witness :
    tB.id ∉ appS0.tasks.map Task.id ∧
    (deleteTask appS0 tB).tasks = appS0.tasks ∧
    (deleteTask appS0 tB).lastDeletedTask = some tB ∧
    (deleteTask appS0 tB).isUndoVisible = true ∧
    (undoDelete (deleteTask appS0 tB)).tasks = appS0.tasks ++ [tB] :=
  ⟨by decide, delete_absent_id appS0 tB (by decide)⟩

/-- C5.  With the scale constant 1 fixed by the seed tasks: for
`timeTaken > 0` the ROI is `revenue / timeTaken`, and for `timeTaken = 0`
it is `0` (the function is total, so it cannot throw or divide by
zero). -/
theorem calculateROI_spec :
    (∀ revenue timeTaken : ℚ, 0 ≤ revenue → 0 < timeTaken →
      calculateROI revenue timeTaken = revenue / timeTaken) ∧
    ∀ revenue : ℚ, calculateROI revenue 0 = 0 := by
  constructor
  · intro revenue timeTaken _ ht
    unfold calculateROI
    rw [if_neg (ne_of_gt ht)]
  · intro revenue
    unfold calculateROI
    rw [if_pos rfl]

/-- C5, witness: ROI of revenue 6 over 3 time units. -/
theorem calculateROI_spec_witness :
    (0 : ℚ) ≤ 6 ∧ (0 : ℚ) < 3 ∧ calculateROI 6 3 = 6 / 3 ∧ calculateROI 6 0 = 0 :=
  ⟨by decide, by decide, calculateROI_spec.1 6 3 (by decide) (by decide),
   calculateROI_spec.2 6⟩

/-- C9.  On a present, non-empty persisted blob the store adopts exactly
the parser's all-or-nothing result, so a corrupt blob makes it propagate
the parse failure (the thrown `JSON.parse` exception) to the caller: it
deterministically never falls back to the seed set and never produces a
partial task list.  On an absent key it seeds.  The empty string is the
one blob the truthiness test `if (saved)` treats like an absent key; the
persistence effect only ever stores `JSON.stringify` output, which is
never empty. -/
theorem loadTasks_policy :
    (∀ (parse : Str → Except Str (List Task)) (s : Str) (seedTasks : List Task),
      s ≠ [] → loadTasks parse (some s) seedTasks = parse s) ∧
    (∀ (parse : Str → Except Str (List Task)) (s : Str) (seedTasks : List Task) (e : Str),
      s ≠ [] → parse s = Except.error e →
      loadTasks parse (some s) seedTasks = Except.error e) ∧
    ∀ (parse : Str → Except Str (List Task)) (seedTasks : List Task),
      loadTasks parse none seedTasks = Except.ok seedTasks := by
  refine ⟨?_, ?_, fun _ _ => rfl⟩
  · intro parse s seedTasks hs
    simp only [loadTasks]
    rw [if_neg hs]
  · intro parse s seedTasks e hs hp
    simp only [loadTasks]
    rw [if_neg hs, hp]

/-- C9, witness: a parser that rejects every blob, applied to the blob
`bad`. -/
theorem loadTasks_policy_witness :
    ("bad".data ≠ ([] : Str)) ∧
    (fun _ : Str => (Except.error ['x'] : Except Str (List Task))) "bad".data =
      Except.error ['x'] ∧
    loadTasks (fun _ => Except.error ['x']) (some "bad".data) [tA] = Except.error ['x'] :=
  ⟨by decide, rfl,
   loadTasks_policy.2.1 (fun _ => Except.error ['x']) "bad".data [tA] ['x'] (by decide) rfl⟩

/-! ## C6 and C7: the view pipeline -/

instance : IsTotal Task taskLE :=
  ⟨by
    intro a b
    unfold taskLE
    rcases Nat.lt_trichotomy (PRIORITY_WEIGHTS a.priority) (PRIORITY_WEIGHTS b.priority) with
      h | h | h
    · exact Or.inr (Or.inl h)
    · rcases Int.le_total b.createdAt a.createdAt with hc | hc
      · exact Or.inl (Or.inr ⟨h, hc⟩)
      · exact Or.inr (Or.inr ⟨h.symm, hc⟩)
    · exact Or.inl (Or.inl h)⟩

instance : IsTrans Task taskLE :=
  ⟨by
    intro a b c hab hbc
    unfold taskLE at hab hbc ⊢
    rcases hab with h1 | ⟨h1, h1'⟩ <;> rcases hbc with h2 | ⟨h2, h2'⟩
    · exact Or.inl (lt_trans h2 h1)
    · exact Or.inl (h2 ▸ h1)
    · exact Or.inl (h1 ▸ h2)
    · exact Or.inr ⟨h1.trans h2, le_trans h2' h1'⟩⟩

/-- Search with an empty query matches every title, like the JavaScript
`includes('')`. -/
theorem strIncludes_nil (hay : Str) : strIncludes hay [] = true := by
  cases hay with
  | nil => rfl
  | cons b bs => rfl

/-- C6.  A task is kept by the view pipeline iff its title
case-insensitively contains the search text (or the search text is empty)
and the status filter is `All` or equals the task's status and the
priority filter is `All` or equals the task's priority; and on the
two-task example collection with priority filter `High` the output is
exactly the task titled `B`. -/
theorem displayTasks_filter_spec :
    (∀ (tasks : List Task) (q fs fp : Str) (t : Task),
      t ∈ displayTasks tasks q fs fp ↔
        t ∈ tasks ∧
          (strIncludes (lowerL t.title) (lowerL q) = true ∨ q = []) ∧
          (fs = "All".data ∨ t.status = fs) ∧
          (fp = "All".data ∨ t.priority = fp)) ∧
    displayTasks [tA, tB] [] "All".data "High".data = [tB] := by
  constructor
  · intro tasks q fs fp t
    unfold displayTasks sortTasks
    rw [List.mem_insertionSort, List.mem_filter]
    constructor
    · rintro ⟨ht, hm⟩
      refine ⟨ht, ?_⟩
      simp only [matchesFilters, Bool.and_eq_true, Bool.or_eq_true, decide_eq_true_eq] at hm
      exact ⟨Or.inl hm.1.1, hm.1.2, hm.2⟩
    · rintro ⟨ht, hsearch, hstat, hprio⟩
      refine ⟨ht, ?_⟩
      simp only [matchesFilters, Bool.and_eq_true, Bool.or_eq_true, decide_eq_true_eq]
      refine ⟨⟨?_, hstat⟩, hprio⟩
      rcases hsearch with h | h
      · exact h
      · rw [h]
        exact strIncludes_nil _
  · decide

/-- C6, witness: the characterization instantiated on the example
collection at the kept task `tB`. -/
theorem displayTasks_filter_spec_witness :
    tB ∈ displayTasks [tA, tB] [] "All".data "High".data ↔
      tB ∈ [tA, tB] ∧
        (strIncludes (lowerL tB.title) (lowerL []) = true ∨ ([] : Str) = []) ∧
        ("All".data = "All".data ∨ tB.status = "All".data) ∧
        ("High".data = "All".data ∨ tB.priority = "High".data) :=
  displayTasks_filter_spec.1 [tA, tB] [] "All".data "High".data tB

/-- A third fixture: same priority and `createdAt` as `tD`, different id
and title, for the stability statement. -/
def tC : Task :=
  { id := ['c'], title := ['C'], revenue := 0, timeTaken := 0, roi := 0
  , priority := "Low".data, status := "Pending".data, notes := [], createdAt := 7 }

/-- A fourth fixture: same priority and `createdAt` as `tC`. -/
def tD : Task :=
  { id := ['d'], title := ['D'], revenue := 0, timeTaken := 0, roi := 0
  , priority := "Low".data, status := "Pending".data, notes := [], createdAt := 7 }

/-- C7.  The view pipeline's sort orders every output by `taskLE`
(primarily by `PRIORITY_WEIGHTS`, High before Medium before Low,
secondarily by `createdAt` descending), and it is stable: two tasks with
equal priority and equal `createdAt` that appear in order `[a, b]` in the
input still appear in that order in the output.  `sortTasks` is a pure
function of its input, so repeated invocations agree definitionally. -/
theorem sortTasks_sorted_stable :
    (∀ l : List Task, List.Sorted taskLE (sortTasks l)) ∧
    ∀ (l : List Task) (a b : Task),
      a.priority = b.priority → a.createdAt = b.createdAt →
      List.Sublist [a, b] l → List.Sublist [a, b] (sortTasks l) := by
  constructor
  · intro l
    exact List.sorted_insertionSort taskLE l
  · intro l a b hp hc hsub
    refine List.pair_sublist_insertionSort ?_ hsub
    unfold taskLE
    rw [hp, hc]
    exact Or.inr ⟨rfl, le_refl _⟩

/-- C7, witness: the two equal-key tasks `tC`, `tD` keep their input order
when `[tC, tD]` is sorted. -/
theorem sortTasks_sorted_stable_witness :
    tC.priority = tD.priority ∧ tC.createdAt = tD.createdAt ∧
    List.Sublist [tC, tD] [tC, tD] ∧ List.Sublist [tC, tD] (sortTasks [tC, tD]) :=
  ⟨rfl, rfl, by decide,
   sortTasks_sorted_stable.2 [tC, tD] tC tD rfl rfl (by decide)⟩

/-! ## C4: CSV import -/

/-- Stated from the claim's words (not from the source): stripping only a
surrounding quote pair removes one leading and one trailing double-quote
character and nothing else. -/
def stripSurroundingQuotes (l : Str) : Str :=
  let l1 := if l.head? = some qc then l.tail else l
  if l1.getLast? = some qc then l1.dropLast else l1

/-- A CSV file whose only data row has the title `a"b`: the quote is
interior, not surrounding. -/
def c4BadText : Str :=
  csvHeader ++ '\n' :: ('a' :: qc :: 'b' :: ",1,0,3,High,Pending,x".data)

/-- C4, counterexample.  The importer runs `.replace(/"/g, '')`, removing
every double-quote character: the title `a"b` comes out as `ab`, while
stripping only surrounding quote characters would leave `a"b` intact. -/
theorem importCSV_not_surrounding_strip :
    ¬ ((importCSV c4BadText 0).map Task.title = [stripSurroundingQuotes ['a', qc, 'b']]) := by
  decide

/-- The C4 scenario file: a header line, a valid row with a quoted title,
a row with only 3 columns, and a second valid row with empty notes. -/
def c4Text : Str :=
  csvHeader ++ '\n' ::
    (qc :: "Alpha".data ++ qc :: ",100,4,0,High,Pending,note one".data) ++ '\n' ::
    "x,y,z".data ++ '\n' ::
    "Beta,50,1,0,Low,Completed,".data

/-- C4 (amended: all quote characters are removed from title and notes,
not merely surrounding ones).  A blank line, or a line with fewer than 6
comma-separated fields, is silently dropped; the scenario file with a
header, 2 valid rows and one 3-column row yields exactly 2 tasks with the
listed fields (numbers parsed, quotes stripped), each with `roi` equal to
`calculateROI(revenue, timeTaken)`, and the batch is prepended to the
existing collection. -/
theorem importCSV_spec :
    (∀ (now : Int) (l : Str) (ls : List Str) (i : Nat),
      trimL l = [] ∨ (splitOnC ',' (trimL l)).length < 6 →
      importLoop now (l :: ls) i = importLoop now ls (i + 1)) ∧
    (importCSV c4Text 0).map Task.title = ["Alpha".data, "Beta".data] ∧
    (importCSV c4Text 0).map Task.revenue = [(100 : ℚ), (50 : ℚ)] ∧
    (importCSV c4Text 0).map Task.timeTaken = [(4 : ℚ), (1 : ℚ)] ∧
    (importCSV c4Text 0).map Task.priority = ["High".data, "Low".data] ∧
    (importCSV c4Text 0).map Task.status = ["Pending".data, "Completed".data] ∧
    (importCSV c4Text 0).map Task.notes = ["note one".data, ([] : Str)] ∧
    (importCSV c4Text 0).map Task.roi =
      (importCSV c4Text 0).map (fun t => calculateROI t.revenue t.timeTaken) ∧
    (importCSV c4Text 0).length = 2 ∧
    applyImport [tA] c4Text 0 = importCSV c4Text 0 ++ [tA] := by
  refine ⟨?_, by decide, by decide, by decide, by decide, by decide, by decide, rfl, rfl, rfl⟩
  intro now l ls i h
  rcases h with h | h
  · simp [importLoop, h]
  · by_cases hb : trimL l = []
    · simp [importLoop, hb]
    · simp [importLoop, hb, Nat.not_le.mpr h]

/-- C4, witness: the drop rule applied to the 3-column row of the
scenario. -/
theorem importCSV_spec_witness :
    (trimL "x,y,z".data = [] ∨ (splitOnC ',' (trimL "x,y,z".data)).length < 6) ∧
    importLoop 0 ["x,y,z".data] 1 = importLoop 0 [] 2 :=
  ⟨Or.inr (by decide), importCSV_spec.1 0 "x,y,z".data [] 1 (Or.inr (by decide))⟩

/-! ## C8: export / re-import round trip.  Supporting lemmas. -/

/-- One unfolding step of `splitOnC`. -/
theorem splitOnC_cons (sep c : Char) (l : Str) :
    splitOnC sep (c :: l) =
      match splitOnC sep l with
      | [] => [[c]]
      | g :: gs => if c = sep then [] :: g :: gs else (c :: g) :: gs := rfl

/-- Splitting never yields the empty list of parts. -/
theorem splitOnC_ne_nil (sep : Char) : ∀ l : Str, splitOnC sep l ≠ [] := by
  intro l
  induction l with
  | nil => exact fun h => List.noConfusion h
  | cons c t ih =>
      rw [splitOnC_cons]
      cases hs : splitOnC sep t with
      | nil => exact fun h => List.noConfusion h
      | cons g gs =>
          by_cases hc : c = sep
          · simp [hc]
          · simp [hc]

/-- A separator-free string splits into itself alone. -/
theorem splitOnC_no_sep {sep : Char} : ∀ {l : Str}, sep ∉ l → splitOnC sep l = [l] := by
  intro l
  induction l with
  | nil => intro _; rfl
  | cons c t ih =>
      intro h
      have hc : c ≠ sep := fun he => h (he ▸ List.mem_cons_self c t)
      have ht : sep ∉ t := fun hm => h (List.mem_cons_of_mem c hm)
      rw [splitOnC_cons, ih ht]
      simp [hc]

/-- Splitting a string of the shape `a ++ sep :: r` with `sep ∉ a` peels
off `a` as the first part. -/
theorem splitOnC_append_sep {sep : Char} (r : Str) :
    ∀ {a : Str}, sep ∉ a → splitOnC sep (a ++ sep :: r) = a :: splitOnC sep r := by
  intro a
  induction a with
  | nil =>
      intro _
      show splitOnC sep (sep :: r) = [] :: splitOnC sep r
      rw [splitOnC_cons]
      cases hs : splitOnC sep r with
      | nil => exact absurd hs (splitOnC_ne_nil sep r)
      | cons g gs => simp
  | cons c t ih =>
      intro h
      have hc : c ≠ sep := fun he => h (he ▸ List.mem_cons_self c t)
      have ht : sep ∉ t := fun hm => h (List.mem_cons_of_mem c hm)
      show splitOnC sep (c :: (t ++ sep :: r)) = (c :: t) :: splitOnC sep r
      rw [splitOnC_cons, ih ht]
      simp [hc]

/-- Splitting inverts joining when no part contains the separator. -/
theorem splitOnC_joinWith {sep : Char} :
    ∀ parts : List Str, parts ≠ [] → (∀ p ∈ parts, sep ∉ p) →
      splitOnC sep (joinWith sep parts) = parts := by
  intro parts
  induction parts with
  | nil => intro h; exact absurd rfl h
  | cons x rest ih =>
      intro _ hp
      cases rest with
      | nil => exact splitOnC_no_sep (hp x (List.mem_cons_self x []))
      | cons y ys =>
          show splitOnC sep (x ++ sep :: joinWith sep (y :: ys)) = x :: y :: ys
          rw [splitOnC_append_sep _ (hp x (List.mem_cons_self x _)),
            ih (fun h => List.noConfusion h) (fun p hm => hp p (List.mem_cons_of_mem x hm))]

/-- Every character of a joined string is the separator or comes from a
part. -/
theorem mem_joinWith {sep c : Char} :
    ∀ parts : List Str, c ∈ joinWith sep parts → c = sep ∨ ∃ p ∈ parts, c ∈ p := by
  intro parts
  induction parts with
  | nil => intro h; exact absurd h (List.not_mem_nil c)
  | cons x rest ih =>
      cases rest with
      | nil =>
          intro h
          exact Or.inr ⟨x, List.mem_cons_self x [], h⟩
      | cons y ys =>
          intro h
          rcases List.mem_append.mp h with h | h
          · exact Or.inr ⟨x, List.mem_cons_self x _, h⟩
          · rcases List.mem_cons.mp h with h | h
            · exact Or.inl h
            · rcases ih h with h | ⟨p, hp, hc⟩
              · exact Or.inl h
              · exact Or.inr ⟨p, List.mem_cons_of_mem x hp, hc⟩

/-- `true` when the string does not start with a whitespace character. -/
def headNotWS : Str → Bool
  | [] => true
  | c :: _ => !isWS c

/-- A string that neither starts nor ends with whitespace is unchanged by
`trimL`. -/
theorem trimL_eq_self {l : Str} (h1 : headNotWS l = true) (h2 : headNotWS l.reverse = true) :
    trimL l = l := by
  have step : ∀ m : Str, headNotWS m = true → m.dropWhile isWS = m := by
    intro m hm
    cases m with
    | nil => rfl
    | cons c t =>
        rw [List.dropWhile_cons, if_neg]
        simp only [headNotWS, Bool.not_eq_true'] at hm
        rw [hm]
        exact Bool.false_ne_true
  unfold trimL
  rw [step l h1, step l.reverse h2, List.reverse_reverse]

/-- `takeWhile` keeps a list all of whose characters satisfy the
predicate. -/
theorem takeWhile_all {p : Char → Bool} :
    ∀ l : Str, (∀ c ∈ l, p c = true) → l.takeWhile p = l := by
  intro l
  induction l with
  | nil => intro _; rfl
  | cons c t ih =>
      intro h
      rw [List.takeWhile_cons, if_pos (h c (List.mem_cons_self c t)),
        ih (fun x hx => h x (List.mem_cons_of_mem c hx))]

/-- `dropWhile` empties a list all of whose characters satisfy the
predicate. -/
theorem dropWhile_all {p : Char → Bool} :
    ∀ l : Str, (∀ c ∈ l, p c = true) → l.dropWhile p = [] := by
  intro l
  induction l with
  | nil => intro _; rfl
  | cons c t ih =>
      intro h
      rw [List.dropWhile_cons, if_pos (h c (List.mem_cons_self c t)),
        ih (fun x hx => h x (List.mem_cons_of_mem c hx))]

/-- A decimal digit is none of the characters the CSV round trip treats
specially. -/
theorem digit_props {c : Char} (h : c.isDigit = true) :
    c ≠ ',' ∧ c ≠ '\n' ∧ c ≠ qc ∧ isWS c = false ∧ c ≠ '-' ∧ c ≠ '+' ∧ c ≠ '.' := by
  have hws : isWS c = false := by
    cases hw : isWS c
    · rfl
    · exfalso
      simp only [isWS, Bool.or_eq_true, beq_iff_eq] at hw
      rcases hw with ((h1 | h1) | h1) | h1 <;> (rw [h1] at h; exact absurd h (by decide))
  refine ⟨?_, ?_, ?_, hws, ?_, ?_, ?_⟩ <;>
    (intro hc; rw [hc] at h; exact absurd h (by decide))

/-- The digit character of a value below 10 is a digit. -/
theorem digitChar_isDigit {d : Nat} (h : d < 10) : (Char.ofNat (48 + d)).isDigit = true := by
  interval_cases d <;> decide

/-- The digit character of a value below 10 decodes back to it. -/
theorem dval_digitChar {d : Nat} (h : d < 10) : dval (Char.ofNat (48 + d)) = d := by
  interval_cases d <;> decide

/-- Value of a digit string read least-significant-first. -/
def valRev : Str → Nat
  | [] => 0
  | c :: cs => dval c + 10 * valRev cs

/-- Appending a digit multiplies the value by ten and adds the digit. -/
theorem digitsToNat_concat (l : Str) (c : Char) :
    digitsToNat (l ++ [c]) = 10 * digitsToNat l + dval c := by
  unfold digitsToNat
  rw [List.foldl_append]
  rfl

/-- Reading reversed digits most-significant-first agrees with `valRev`. -/
theorem digitsToNat_reverse : ∀ xs : Str, digitsToNat xs.reverse = valRev xs := by
  intro xs
  induction xs with
  | nil => rfl
  | cons c cs ih =>
      rw [List.reverse_cons, digitsToNat_concat, ih]
      show 10 * valRev cs + dval c = dval c + 10 * valRev cs
      omega

/-- Every character produced by `natDigitsAux` is a decimal digit. -/
theorem natDigitsAux_digits : ∀ (fuel n : Nat), ∀ c ∈ natDigitsAux fuel n, c.isDigit = true := by
  intro fuel
  induction fuel with
  | zero => intro n c hc; exact absurd hc (List.not_mem_nil c)
  | succ fuel ih =>
      intro n c hc
      by_cases hn : n = 0
      · rw [hn] at hc
        exact absurd hc (List.not_mem_nil c)
      · rw [natDigitsAux, if_neg hn] at hc
        rcases List.mem_cons.mp hc with h | h
        · exact h ▸ digitChar_isDigit (Nat.mod_lt n (by omega))
        · exact ih (n / 10) c h

/-- With enough fuel, `natDigitsAux` produces the digits of `n`. -/
theorem valRev_natDigitsAux : ∀ fuel n : Nat, n ≤ fuel → valRev (natDigitsAux fuel n) = n := by
  intro fuel
  induction fuel with
  | zero =>
      intro n h
      interval_cases n
      rfl
  | succ fuel ih =>
      intro n h
      by_cases hn : n = 0
      · rw [hn]; rfl
      · have hdiv : n / 10 ≤ fuel := by
          have := Nat.div_lt_self (Nat.pos_of_ne_zero hn) (by omega : 1 < 10)
          omega
        rw [natDigitsAux, if_neg hn]
        show dval (Char.ofNat (48 + n % 10)) + 10 * valRev (natDigitsAux fuel (n / 10)) = n
        rw [dval_digitChar (Nat.mod_lt n (by omega)), ih (n / 10) hdiv]
        omega

/-- Decimal rendering is never empty. -/
theorem natToStr_ne_nil (n : Nat) : natToStr n ≠ [] := by
  unfold natToStr
  by_cases hn : n = 0
  · rw [if_pos hn]
    exact fun h => List.noConfusion h
  · rw [if_neg hn, natDigitsAux, if_neg hn]
    simp

/-- Every character of a decimal rendering is a digit. -/
theorem natToStr_digits (n : Nat) : ∀ c ∈ natToStr n, c.isDigit = true := by
  unfold natToStr
  by_cases hn : n = 0
  · rw [if_pos hn]
    intro c hc
    rcases List.mem_singleton.mp hc with rfl
    decide
  · rw [if_neg hn]
    intro c hc
    exact natDigitsAux_digits (n + 1) n c (List.mem_reverse.mp hc)

/-- Decimal rendering decodes back to the rendered number. -/
theorem digitsToNat_natToStr (n : Nat) : digitsToNat (natToStr n) = n := by
  unfold natToStr
  by_cases hn : n = 0
  · rw [if_pos hn, hn]
    rfl
  · rw [if_neg hn, digitsToNat_reverse]
    exact valRev_natDigitsAux (n + 1) n (Nat.le_succ n)

/-- Parsing inverts decimal rendering of a natural number. -/
theorem parseNumOr0_natToStr (n : Nat) : parseNumOr0 (natToStr n) = (n : ℚ) := by
  have hd := natToStr_digits n
  cases hns : natToStr n with
  | nil => exact absurd hns (natToStr_ne_nil n)
  | cons c r =>
      rw [hns] at hd
      have hcd : c.isDigit = true := hd c (List.mem_cons_self c r)
      have hprops := digit_props hcd
      unfold parseNumOr0 parseFloat
      have hdrop : (c :: r).dropWhile isWS = c :: r := by
        rw [List.dropWhile_cons, if_neg]
        rw [hprops.2.2.2.1]
        exact Bool.false_ne_true
      rw [hdrop]
      show (if c = '-' then (parseUnsigned r).map (fun q => -q)
            else if c = '+' then parseUnsigned r
            else parseUnsigned (c :: r)).getD 0 = (n : ℚ)
      rw [if_neg hprops.2.2.2.2.1, if_neg hprops.2.2.2.2.2.1]
      unfold parseUnsigned
      rw [takeWhile_all _ hd, dropWhile_all _ hd]
      show (if (c :: r : Str) = [] then none
            else some ((digitsToNat (c :: r) : ℚ))).getD 0 = (n : ℚ)
      rw [if_neg (List.cons_ne_nil c r), ← hns, digitsToNat_natToStr]
      rfl

/-- Rendering a natural-number rational uses the decimal digits. -/
theorem numOut_natCast (n : Nat) : numOut (n : ℚ) = natToStr n := by
  unfold numOut
  rw [if_pos (Rat.den_natCast n)]
  unfold intToStr
  rw [Rat.num_natCast, if_neg (by omega : ¬ ((n : ℤ) < 0)), Int.toNat_natCast]

/-- Characters of an integer rendering: a minus sign or digits. -/
theorem intToStr_chars {z : Int} {c : Char} (h : c ∈ intToStr z) :
    c = '-' ∨ c.isDigit = true := by
  unfold intToStr at h
  by_cases hz : z < 0
  · rw [if_pos hz] at h
    rcases List.mem_cons.mp h with h | h
    · exact Or.inl h
    · exact Or.inr (natToStr_digits _ c h)
  · rw [if_neg hz] at h
    exact Or.inr (natToStr_digits _ c h)

/-- Characters of a number rendering: sign, slash or digits. -/
theorem numOut_chars {q : ℚ} {c : Char} (h : c ∈ numOut q) :
    c = '-' ∨ c = '/' ∨ c.isDigit = true := by
  unfold numOut at h
  by_cases hd : q.den = 1
  · rw [if_pos hd] at h
    rcases intToStr_chars h with h | h
    · exact Or.inl h
    · exact Or.inr (Or.inr h)
  · rw [if_neg hd] at h
    rcases List.mem_append.mp h with h | h
    · rcases intToStr_chars h with h | h
      · exact Or.inl h
      · exact Or.inr (Or.inr h)
    · rcases List.mem_cons.mp h with h | h
      · exact Or.inr (Or.inl h)
      · exact Or.inr (Or.inr (natToStr_digits _ c h))

/-- Number renderings contain no comma and no newline. -/
theorem numOut_safe (q : ℚ) : ',' ∉ numOut q ∧ '\n' ∉ numOut q := by
  constructor <;>
    (intro hm; rcases numOut_chars hm with h | h | h <;> exact absurd h (by decide))

/-- Escaping leaves a comma-, quote- and newline-free field unchanged. -/
theorem escapeCSV_id {f : Str} (h1 : ',' ∉ f) (h2 : qc ∉ f) (h3 : '\n' ∉ f) :
    escapeCSV f = f := by
  unfold escapeCSV
  rw [if_neg]
  rintro (h | h | h)
  exacts [h1 h, h2 h, h3 h]

/-- Quote removal leaves a quote-free field unchanged. -/
theorem removeQuotes_id {f : Str} (h : qc ∉ f) : removeQuotes f = f := by
  unfold removeQuotes
  rw [List.filter_eq_self]
  intro a ha
  simp only [decide_eq_true_eq]
  exact fun he => h (he ▸ ha)

/-- `headNotWS` on a non-empty string inspects the head. -/
theorem headNotWS_cons (c : Char) (l : Str) : headNotWS (c :: l) = !isWS c := rfl

/-- A joined string starts like its first part (or with the separator). -/
theorem headNotWS_joinWith {sep : Char} (hsep : isWS sep = false) (x : Str)
    (hx : headNotWS x = true) (rest : List Str) :
    headNotWS (joinWith sep (x :: rest)) = true := by
  cases rest with
  | nil => exact hx
  | cons y ys =>
      show headNotWS (x ++ sep :: joinWith sep (y :: ys)) = true
      cases x with
      | nil =>
          show headNotWS (sep :: joinWith sep (y :: ys)) = true
          rw [headNotWS_cons, hsep]
          rfl
      | cons c t =>
          show headNotWS (c :: (t ++ sep :: joinWith sep (y :: ys))) = true
          rw [headNotWS_cons]
          exact hx

/-- A joined string ends like its last part (or with the separator). -/
theorem headNotWS_rev_joinWith {sep : Char} (hsep : isWS sep = false) (lastp : Str)
    (hlast : headNotWS lastp.reverse = true) :
    ∀ parts : List Str, headNotWS (joinWith sep (parts ++ [lastp])).reverse = true := by
  intro parts
  induction parts with
  | nil => exact hlast
  | cons x rest ih =>
      cases hrl : rest ++ [lastp] with
      | nil => exact absurd hrl (by simp)
      | cons z zs =>
          show headNotWS (joinWith sep (x :: (rest ++ [lastp]))).reverse = true
          rw [hrl]
          show headNotWS (x ++ sep :: joinWith sep (z :: zs)).reverse = true
          rw [List.reverse_append, List.reverse_cons]
          rw [hrl] at ih
          cases hj : (joinWith sep (z :: zs)).reverse with
          | nil =>
              show headNotWS (sep :: x.reverse) = true
              rw [headNotWS_cons, hsep]
              rfl
          | cons w ws =>
              rw [hj] at ih
              show headNotWS (w :: ((ws ++ [sep]) ++ x.reverse)) = true
              rw [headNotWS_cons]
              rw [headNotWS_cons] at ih
              exact ih

/-- The side conditions under which a task survives the CSV round trip:
its text fields do not collide with the codec's separators and escapes
(the spec itself flags quoted-comma handling as unsupported on import),
its title and notes do not touch the `trim` of the row, its
priority/status are non-empty (an empty one is replaced by the import
defaults), and its numbers are integral (the modelled number rendering is
exact on integers). -/
structure GoodTask (t : Task) : Prop where
  titleComma : ',' ∉ t.title
  titleQuote : qc ∉ t.title
  titleNL : '\n' ∉ t.title
  notesComma : ',' ∉ t.notes
  notesQuote : qc ∉ t.notes
  notesNL : '\n' ∉ t.notes
  prioComma : ',' ∉ t.priority
  prioQuote : qc ∉ t.priority
  prioNL : '\n' ∉ t.priority
  statComma : ',' ∉ t.status
  statQuote : qc ∉ t.status
  statNL : '\n' ∉ t.status
  prioNe : t.priority ≠ []
  statNe : t.status ≠ []
  titleHead : headNotWS t.title = true
  notesLast : headNotWS t.notes.reverse = true
  revNat : ∃ n : ℕ, t.revenue = (n : ℚ)
  timeNat : ∃ n : ℕ, t.timeTaken = (n : ℚ)

/-- For a good task the escapes vanish and the row is the plain join of
its seven fields. -/
theorem rowOf_fields (t : Task) (hg : GoodTask t) :
    rowOf t = joinWith ','
      [ t.title, numOut t.revenue, numOut t.timeTaken, numOut t.roi
      , t.priority, t.status, t.notes ] := by
  unfold rowOf
  rw [escapeCSV_id hg.titleComma hg.titleQuote hg.titleNL,
    escapeCSV_id hg.prioComma hg.prioQuote hg.prioNL,
    escapeCSV_id hg.statComma hg.statQuote hg.statNL,
    escapeCSV_id hg.notesComma hg.notesQuote hg.notesNL]

/-- Splitting a good task's row recovers exactly its seven fields. -/
theorem rowOf_split (t : Task) (hg : GoodTask t) :
    splitOnC ',' (rowOf t) =
      [ t.title, numOut t.revenue, numOut t.timeTaken, numOut t.roi
      , t.priority, t.status, t.notes ] := by
  rw [rowOf_fields t hg]
  apply splitOnC_joinWith
  · exact fun h => List.noConfusion h
  · intro p hp
    simp only [List.mem_cons, List.not_mem_nil, or_false] at hp
    rcases hp with rfl | rfl | rfl | rfl | rfl | rfl | rfl
    exacts [hg.titleComma, (numOut_safe _).1, (numOut_safe _).1, (numOut_safe _).1,
      hg.prioComma, hg.statComma, hg.notesComma]

/-- A good task's row is not the empty line. -/
theorem rowOf_ne_nil (t : Task) (hg : GoodTask t) : rowOf t ≠ [] := by
  intro h
  have hsp := rowOf_split t hg
  have hnil : splitOnC ',' ([] : Str) = [[]] := rfl
  rw [h, hnil] at hsp
  have hlen := congrArg List.length hsp
  simp at hlen

/-- A good task's row survives the importer's `trim`. -/
theorem rowOf_trim (t : Task) (hg : GoodTask t) : trimL (rowOf t) = rowOf t := by
  apply trimL_eq_self
  · rw [rowOf_fields t hg]
    exact headNotWS_joinWith (by decide) t.title hg.titleHead _
  · rw [rowOf_fields t hg]
    exact headNotWS_rev_joinWith (by decide) t.notes hg.notesLast
      [t.title, numOut t.revenue, numOut t.timeTaken, numOut t.roi, t.priority, t.status]

/-- A good task's row contains no newline, so the export keeps one line
per task. -/
theorem rowOf_nl (t : Task) (hg : GoodTask t) : '\n' ∉ rowOf t := by
  rw [rowOf_fields t hg]
  intro hm
  rcases mem_joinWith _ hm with h | ⟨p, hp, hc⟩
  · exact absurd h (by decide)
  · simp only [List.mem_cons, List.not_mem_nil, or_false] at hp
    rcases hp with rfl | rfl | rfl | rfl | rfl | rfl | rfl
    exacts [hg.titleNL hc, (numOut_safe _).2 hc, (numOut_safe _).2 hc, (numOut_safe _).2 hc,
      hg.prioNL hc, hg.statNL hc, hg.notesNL hc]

/-- The fields the round-trip claim compares: everything except `id`,
`createdAt`, `roi` and `notes`. -/
def sameCore (u t : Task) : Prop :=
  u.title = t.title ∧ u.revenue = t.revenue ∧ u.timeTaken = t.timeTaken ∧
    u.priority = t.priority ∧ u.status = t.status

/-- Importing the split fields of a good task's row rebuilds its core
fields. -/
theorem mkImported_core (t : Task) (hg : GoodTask t) (i : Nat) (now : Int) :
    sameCore
      (mkImportedTask
        [ t.title, numOut t.revenue, numOut t.timeTaken, numOut t.roi
        , t.priority, t.status, t.notes ] i now)
      t := by
  obtain ⟨nr, hnr⟩ := hg.revNat
  obtain ⟨nt, hnt⟩ := hg.timeNat
  refine ⟨?_, ?_, ?_, ?_, ?_⟩
  · show removeQuotes t.title = t.title
    exact removeQuotes_id hg.titleQuote
  · show parseNumOr0 (numOut t.revenue) = t.revenue
    rw [hnr, numOut_natCast, parseNumOr0_natToStr]
  · show parseNumOr0 (numOut t.timeTaken) = t.timeTaken
    rw [hnt, numOut_natCast, parseNumOr0_natToStr]
  · show jsOr t.priority "Low".data = t.priority
    unfold jsOr
    rw [if_neg hg.prioNe]
  · show jsOr t.status "Pending".data = t.status
    unfold jsOr
    rw [if_neg hg.statNe]

/-- The import row loop rebuilds the core of every good task, in order. -/
theorem importLoop_rows :
    ∀ ts : List Task, (∀ t ∈ ts, GoodTask t) → ∀ (i : Nat) (now : Int),
      List.Forall₂ sameCore (importLoop now (ts.map rowOf) i) ts := by
  intro ts
  induction ts with
  | nil => intro _ i now; exact List.Forall₂.nil
  | cons t rest ih =>
      intro h i now
      have hg := h t (List.mem_cons_self t rest)
      show List.Forall₂ sameCore (importLoop now (rowOf t :: rest.map rowOf) i) (t :: rest)
      rw [importLoop, rowOf_trim t hg, rowOf_split t hg, if_neg (rowOf_ne_nil t hg),
        if_pos (by simp :
          6 ≤ ([ t.title, numOut t.revenue, numOut t.timeTaken, numOut t.roi
               , t.priority, t.status, t.notes ] : List Str).length)]
      exact List.Forall₂.cons (mkImported_core t hg i now)
        (ih (fun u hu => h u (List.mem_cons_of_mem t hu)) (i + 1) now)

/-- C8 (amended: for collections of `GoodTask`s, whose fields avoid the
separators the naive codec cannot round-trip).  Exporting and re-importing
yields the same number of tasks with the same `title`, `revenue`,
`timeTaken`, `priority` and `status`. -/
theorem export_import_roundTrip :
    ∀ (ts : List Task) (now : Int), (∀ t ∈ ts, GoodTask t) →
      List.Forall₂ sameCore (importCSV (exportTasksToCSV ts) now) ts ∧
      (importCSV (exportTasksToCSV ts) now).length = ts.length := by
  intro ts now hgood
  have hsplit : splitOnC '\n' (exportTasksToCSV ts) = csvHeader :: ts.map rowOf := by
    unfold exportTasksToCSV
    apply splitOnC_joinWith
    · exact fun h => List.noConfusion h
    · intro p hp
      rcases List.mem_cons.mp hp with rfl | hm
      · decide
      · obtain ⟨t, ht, rfl⟩ := List.mem_map.mp hm
        exact rowOf_nl t (hgood t ht)
  have himp : importCSV (exportTasksToCSV ts) now = importLoop now (ts.map rowOf) 1 := by
    unfold importCSV
    rw [hsplit]
    rfl
  rw [himp]
  have hf := importLoop_rows ts hgood 1 now
  exact ⟨hf, hf.length_eq⟩

/-- Core-related lists have equal title lists. -/
theorem forall₂_sameCore_titles :
    ∀ {l₁ l₂ : List Task}, List.Forall₂ sameCore l₁ l₂ →
      l₁.map Task.title = l₂.map Task.title := by
  intro l₁ l₂ h
  induction h with
  | nil => rfl
  | cons hr _ ih =>
      simp only [List.map_cons, ih]
      rw [hr.1]

/-- A task whose title contains a comma: the export quotes it, the naive
comma-split import then shears the row apart. -/
def cex8 : Task :=
  { id := ['e'], title := ['a', ',', 'b'], revenue := 5, timeTaken := 0, roi := 0
  , priority := "High".data, status := "Pending".data, notes := [], createdAt := 0 }

/-- C8, counterexample: for the collection `[cex8]` the round trip does
not restore the title (the task comes back titled `a`, not `a,b`), so the
unconditional claim fails. -/
theorem export_import_not_roundTrip :
    ¬ List.Forall₂ sameCore (importCSV (exportTasksToCSV [cex8]) 0) [cex8] := by
  intro h
  have hti := forall₂_sameCore_titles h
  have hne : ¬ ((importCSV (exportTasksToCSV [cex8]) 0).map Task.title =
      [cex8].map Task.title) := by decide
  exact hne hti

/-- A concrete good task for the round-trip witness. -/
def tG : Task :=
  { id := ['g'], title := "Task one".data, revenue := 5, timeTaken := 2, roi := 0
  , priority := "High".data, status := "Pending".data, notes := "ok".data, createdAt := 3 }

/-- The witness task satisfies every side condition. -/
theorem tG_good : GoodTask tG := by
  constructor <;> first | decide | exact ⟨5, by decide⟩ | exact ⟨2, by decide⟩

/-- C8, witness: the round trip on the one-task collection `[tG]`. -/
theorem export_import_roundTrip_witness :
    (∀ t ∈ [tG], GoodTask t) ∧
    List.Forall₂ sameCore (importCSV (exportTasksToCSV [tG]) 0) [tG] ∧
    (importCSV (exportTasksToCSV [tG]) 0).length = 1 := by
  have hall : ∀ t ∈ [tG], GoodTask t := by
    intro t ht
    rcases List.mem_singleton.mp ht with rfl
    exact tG_good
  exact ⟨hall, (export_import_roundTrip [tG] 0 hall).1,
    (export_import_roundTrip [tG] 0 hall).2⟩

end TaskGlitch
